import Mathlib

/-!
Verification of the change-detection and notification core of the
`shows` StubHub scraper repository, shallowly embedded from the
TypeScript sources (the variant carrying the state/diff/Slack pipeline).

Machine arithmetic: JavaScript `parseInt` is modelled as a partial
function `jsParseInt : String → Option Int` (`none` stands for `NaN`);
`NaN`'s comparison semantics (every `<`, `>`, `===` is false) is
modelled by the `jsLt`, `jsGt` helpers on `Option Int`.
-/

namespace Shows

/-- `ConcertDeal`, the canonical listing record of the scraper
(interface `ConcertDeal` in the source). -/
structure ConcertDeal where
  title : String
  venue : String
  date : String
  time : String
  price : String
  prices : List String
  url : String
deriving DecidableEq, Repr

/-- The diff status tags of `DealWithStatus`. -/
inductive DealStatus where
  | new
  | price_drop
  | no_change
  | price_increase
deriving DecidableEq, Repr

/-- `DealWithStatus extends ConcertDeal` with a status and an
optional `previousPrice` (absent = `none`, mirroring `undefined`). -/
structure DealWithStatus extends ConcertDeal where
  status : DealStatus
  previousPrice : Option String := none
deriving DecidableEq, Repr

/-- `StateFile`, the persisted previous-run record. -/
structure StateFile where
  lastRun : String
  deals : List ConcertDeal
deriving DecidableEq, Repr

/-- The whitespace characters skipped by JavaScript `parseInt`
(ASCII subset; the price strings handled here contain no exotic
Unicode whitespace). -/
def isJsSpace (c : Char) : Bool :=
  c = ' ' || c = '\t' || c = '\n' || c = '\r' || c = '\x0b' || c = '\x0c'

/-- Decimal digit value. -/
def decDigit (c : Char) : Option Nat :=
  if '0' ≤ c ∧ c ≤ '9' then some (c.toNat - '0'.toNat) else none

/-- Hexadecimal digit value. -/
def hexDigit (c : Char) : Option Nat :=
  if '0' ≤ c ∧ c ≤ '9' then some (c.toNat - '0'.toNat)
  else if 'a' ≤ c ∧ c ≤ 'f' then some (c.toNat - 'a'.toNat + 10)
  else if 'A' ≤ c ∧ c ≤ 'F' then some (c.toNat - 'A'.toNat + 10)
  else none

/-- Accumulate the value of the longest digit run at the head of the
character list (base `b`, digit reader `dv`); stops at the first
non-digit, as `parseInt` does. -/
def digitsVal (b : Nat) (dv : Char → Option Nat) : List Char → Nat → Nat
  | [], acc => acc
  | c :: cs, acc =>
    match dv c with
    | some v => digitsVal b dv cs (acc * b + v)
    | none => acc

/-- Is the first character a digit for reader `dv`? -/
def headDigit (dv : Char → Option Nat) : List Char → Bool
  | c :: _ => (dv c).isSome
  | [] => false

/-- JavaScript `parseInt(s)` with no radix argument: skip leading
whitespace, read an optional sign, auto-detect a `0x`/`0X` hex prefix,
then read the longest digit run, ignoring trailing garbage; `none`
models `NaN` (no digit found). -/
def jsParseInt (s : String) : Option Int :=
  let t := s.data.dropWhile isJsSpace
  let sign : Int := if t.head? = some '-' then -1 else 1
  let u := match t with
    | '-' :: r => r
    | '+' :: r => r
    | _ => t
  match u with
  | '0' :: 'x' :: r =>
    if headDigit hexDigit r then some (sign * Int.ofNat (digitsVal 16 hexDigit r 0)) else none
  | '0' :: 'X' :: r =>
    if headDigit hexDigit r then some (sign * Int.ofNat (digitsVal 16 hexDigit r 0)) else none
  | _ =>
    if headDigit decDigit u then some (sign * Int.ofNat (digitsVal 10 decDigit u 0)) else none

/-- `s.replace(/[$,]/g, '')`: delete every `$` and `,`. -/
def stripDollarCommas (s : String) : String :=
  String.mk (s.data.filter (fun c => !(c = '$' || c = ',')))

/-- The numeric value the diff engine assigns to a `prices` list:
`prices.length > 0 ? parseInt(prices[0].replace(/[$,]/g, '')) : 0`.
An empty list gives the literal number `0`; a head that fails to
parse gives `none` (`NaN`). -/
def effPrice (prices : List String) : Option Int :=
  match prices with
  | [] => some 0
  | p :: _ => jsParseInt (stripDollarCommas p)

/-- JavaScript `<` on numbers where `none` is `NaN`: any comparison
with `NaN` is false. -/
def jsLt : Option Int → Option Int → Bool
  | some a, some b => decide (a < b)
  | _, _ => false

/-- JavaScript `>` on numbers where `none` is `NaN`. -/
def jsGt : Option Int → Option Int → Bool
  | some a, some b => decide (a > b)
  | _, _ => false

/-- The `Map`-building loop of `compareWithPreviousState`:
`previousState.deals.forEach(deal => previousDealsMap.set(deal.url, deal))`.
Later entries with the same `url` overwrite earlier ones, as `Map.set`
does. -/
def buildPrevMap (deals : List ConcertDeal) : String → Option ConcertDeal :=
  deals.foldl (fun m d => fun k => if k = d.url then some d else m k) (fun _ => none)

/-- The body of the per-listing branch of `compareWithPreviousState`:
lookup by `url`; unmatched is `new`; matched compares
`currentPrice`/`previousPrice` with the `=== 0` guard first, then
`<`, then `>`, else `no_change`, always attaching
`previousPrice = previousDeal.price`. -/
def classifyDeal (prevMap : String → Option ConcertDeal) (d : ConcertDeal) : DealWithStatus :=
  match prevMap d.url with
  | none => { toConcertDeal := d, status := .new, previousPrice := none }
  | some pd =>
    let currentPrice := effPrice d.prices
    let previousPrice := effPrice pd.prices
    if currentPrice = some 0 ∨ previousPrice = some 0 then
      { toConcertDeal := d, status := .no_change, previousPrice := some pd.price }
    else if jsLt currentPrice previousPrice then
      { toConcertDeal := d, status := .price_drop, previousPrice := some pd.price }
    else if jsGt currentPrice previousPrice then
      { toConcertDeal := d, status := .price_increase, previousPrice := some pd.price }
    else
      { toConcertDeal := d, status := .no_change, previousPrice := some pd.price }

/-- `compareWithPreviousState(currentDeals, previousState)`: first-run
branch when the previous state is absent or has no deals, otherwise a
url-keyed lookup map is built and the loop pushes one classified deal
per current deal (modelled by a `foldl` that appends). -/
def compareWithPreviousState (currentDeals : List ConcertDeal)
    (previousState : Option StateFile) : List DealWithStatus :=
  match previousState with
  | none => currentDeals.map (fun d => { toConcertDeal := d, status := .new, previousPrice := none })
  | some st =>
    if st.deals.isEmpty then
      currentDeals.map (fun d => { toConcertDeal := d, status := .new, previousPrice := none })
    else
      let m := buildPrevMap st.deals
      currentDeals.foldl (fun acc d => acc ++ [classifyDeal m d]) []

/-- The per-deal view of the whole diff: what `compareWithPreviousState`
computes for one listing, as a function of the previous state alone. -/
def classifyAgainst (previousState : Option StateFile) (d : ConcertDeal) : DealWithStatus :=
  match previousState with
  | none => { toConcertDeal := d, status := .new, previousPrice := none }
  | some st =>
    if st.deals.isEmpty then
      { toConcertDeal := d, status := .new, previousPrice := none }
    else
      classifyDeal (buildPrevMap st.deals) d

theorem foldl_push_eq_map {α β : Type} (f : α → β) (l : List α) (acc : List β) :
    l.foldl (fun a x => a ++ [f x]) acc = acc ++ l.map f := by
  induction l generalizing acc with
  | nil => simp
  | cons x xs ih => simp [List.foldl, ih]

theorem compare_eq_map (cur : List ConcertDeal) (prev : Option StateFile) :
    compareWithPreviousState cur prev = cur.map (classifyAgainst prev) := by
  cases prev with
  | none => rfl
  | some st =>
    by_cases h : st.deals.isEmpty
    · simp [compareWithPreviousState, classifyAgainst, h]
    · simp [compareWithPreviousState, classifyAgainst, h, foldl_push_eq_map]

theorem classifyDeal_toConcertDeal (m : String → Option ConcertDeal) (d : ConcertDeal) :
    (classifyDeal m d).toConcertDeal = d := by
  unfold classifyDeal
  cases m d.url with
  | none => rfl
  | some pd => dsimp only; split_ifs <;> rfl

theorem classifyAgainst_toConcertDeal (p : Option StateFile) (d : ConcertDeal) :
    (classifyAgainst p d).toConcertDeal = d := by
  cases p with
  | none => rfl
  | some st =>
    by_cases h : st.deals.isEmpty <;>
      simp [classifyAgainst, h, classifyDeal_toConcertDeal]

theorem jsLt_none_left (x : Option Int) : jsLt none x = false := by cases x <;> rfl

theorem jsLt_none_right (x : Option Int) : jsLt x none = false := by cases x <;> rfl

theorem jsGt_none_left (x : Option Int) : jsGt none x = false := by cases x <;> rfl

theorem jsGt_none_right (x : Option Int) : jsGt x none = false := by cases x <;> rfl

theorem classifyDeal_no_change_of_bad (m : String → Option ConcertDeal) (d pd : ConcertDeal)
    (hm : m d.url = some pd)
    (hz : effPrice d.prices = some 0 ∨ effPrice d.prices = none ∨
          effPrice pd.prices = some 0 ∨ effPrice pd.prices = none) :
    (classifyDeal m d).status = .no_change := by
  unfold classifyDeal
  rw [hm]
  dsimp only
  by_cases hif : effPrice d.prices = some 0 ∨ effPrice pd.prices = some 0
  · simp [hif]
  · have h1 : jsLt (effPrice d.prices) (effPrice pd.prices) = false := by
      rcases hz with h | h | h | h
      · exact absurd (Or.inl h) hif
      · rw [h]; exact jsLt_none_left _
      · exact absurd (Or.inr h) hif
      · rw [h]; exact jsLt_none_right _
    have h2 : jsGt (effPrice d.prices) (effPrice pd.prices) = false := by
      rcases hz with h | h | h | h
      · exact absurd (Or.inl h) hif
      · rw [h]; exact jsGt_none_left _
      · exact absurd (Or.inr h) hif
      · rw [h]; exact jsGt_none_right _
    simp [hif, h1, h2]

theorem classifyDeal_matched_prev (m : String → Option ConcertDeal) (d pd : ConcertDeal)
    (hm : m d.url = some pd) :
    (classifyDeal m d).previousPrice = some pd.price := by
  unfold classifyDeal
  rw [hm]
  dsimp only
  split_ifs <;> rfl

theorem classifyDeal_matched_status (m : String → Option ConcertDeal) (d pd : ConcertDeal)
    (a b : Int) (hm : m d.url = some pd)
    (ha : effPrice d.prices = some a) (hb : effPrice pd.prices = some b)
    (ha0 : a ≠ 0) (hb0 : b ≠ 0) :
    (classifyDeal m d).status =
      (if a < b then DealStatus.price_drop
       else if b < a then DealStatus.price_increase
       else DealStatus.no_change) := by
  unfold classifyDeal
  rw [hm]
  dsimp only
  rw [ha, hb]
  have hif : ¬(some a = some (0 : Int) ∨ some b = some (0 : Int)) := by
    simp [ha0, hb0]
  rcases lt_trichotomy a b with hab | hab | hab
  · simp [hif, ha0, hb0, jsLt, hab, not_lt_of_gt hab]
  · subst hab
    simp [hif, ha0, jsLt, jsGt]
  · simp [hif, ha0, hb0, jsLt, jsGt, hab, not_lt_of_gt hab]

theorem buildPrevMap_ne_nil {deals : List ConcertDeal} {url : String} {pd : ConcertDeal}
    (h : buildPrevMap deals url = some pd) : deals.isEmpty = false := by
  cases deals with
  | nil => simp [buildPrevMap] at h
  | cons a l => rfl

/-- C1: For every list `X` of listings, `classify(X, null)` and
`classify(X, {deals: []})` both return every element of `X`
classified `new` (in order, carried unchanged) with no
`previousPrice` populated. -/
theorem first_run_totality (X : List ConcertDeal) (lr : String) :
    compareWithPreviousState X none =
      X.map (fun d => { toConcertDeal := d, status := .new, previousPrice := none }) ∧
    compareWithPreviousState X (some { lastRun := lr, deals := [] }) =
      X.map (fun d => { toConcertDeal := d, status := .new, previousPrice := none }) :=
  ⟨rfl, rfl⟩

/-- C4: the diff is a pure per-element map over `current`: the i-th
output is a function (`classifyAgainst`) of the i-th current listing
and the previous state alone, so the result is deterministic in the
two inputs and preserves `current`'s order; the embedding is a total
function on immutable values, so neither input is mutated. -/
theorem classify_pure_order_preserving (current : List ConcertDeal)
    (previous : Option StateFile) :
    compareWithPreviousState current previous = current.map (classifyAgainst previous) :=
  compare_eq_map current previous

/-- C10: `classify` returns exactly one `ClassifiedListing` per element
of `current`, in the same order, carrying that element's fields
unchanged; listings present only in the previous state never appear,
so the output length equals `current.length`. -/
theorem classify_one_output_per_current (current : List ConcertDeal)
    (previous : Option StateFile) :
    (compareWithPreviousState current previous).length = current.length ∧
    ∀ i : Nat,
      ((compareWithPreviousState current previous)[i]?).map (·.toConcertDeal) = current[i]? := by
  constructor
  · rw [compare_eq_map]; exact List.length_map _ _
  · intro i
    rw [compare_eq_map, List.getElem?_map]
    cases h : current[i]? with
    | none => rfl
    | some d => simp [classifyAgainst_toConcertDeal]

/-- C2: for a current listing matched by url to a previous listing,
if either side's effective price is the number 0 (including the
empty-`prices` case, which the code turns into the literal 0) or
fails to parse (`NaN`), the classification is `no_change`, never
`price_drop` or `price_increase`. -/
theorem zero_price_conservatism (cur : List ConcertDeal) (st : StateFile) (i : Nat)
    (h : i < cur.length) (pd : ConcertDeal)
    (hmatch : buildPrevMap st.deals (cur[i]).url = some pd)
    (hz : effPrice (cur[i]).prices = some 0 ∨ effPrice (cur[i]).prices = none ∨
          effPrice pd.prices = some 0 ∨ effPrice pd.prices = none) :
    ((compareWithPreviousState cur (some st))[i]?).map (·.status) =
      some DealStatus.no_change := by
  have hne := buildPrevMap_ne_nil hmatch
  rw [compare_eq_map, List.getElem?_map, List.getElem?_eq_getElem h]
  have : classifyAgainst (some st) cur[i] = classifyDeal (buildPrevMap st.deals) cur[i] := by
    simp [classifyAgainst, hne]
  simp only [Option.map_some']
  rw [this]
  rw [classifyDeal_no_change_of_bad _ _ _ hmatch hz]

/-- C3: for a matched pair whose effective prices both parse to
nonzero numbers, the status is `price_drop` when current < previous,
`price_increase` when current > previous, `no_change` when equal; and
in every matched case `previousPrice` is the previous listing's
display `price` string. -/
theorem matched_price_comparison (cur : List ConcertDeal) (st : StateFile) (i : Nat)
    (h : i < cur.length) (pd : ConcertDeal)
    (hmatch : buildPrevMap st.deals (cur[i]).url = some pd) :
    (∀ a b : Int, effPrice (cur[i]).prices = some a → effPrice pd.prices = some b →
      a ≠ 0 → b ≠ 0 →
      ((compareWithPreviousState cur (some st))[i]?).map (·.status) =
        some (if a < b then DealStatus.price_drop
              else if b < a then DealStatus.price_increase
              else DealStatus.no_change)) ∧
    ((compareWithPreviousState cur (some st))[i]?).map (·.previousPrice) =
      some (some pd.price) := by
  have hne := buildPrevMap_ne_nil hmatch
  have hred : classifyAgainst (some st) cur[i] = classifyDeal (buildPrevMap st.deals) cur[i] := by
    simp [classifyAgainst, hne]
  constructor
  · intro a b ha hb ha0 hb0
    rw [compare_eq_map, List.getElem?_map, List.getElem?_eq_getElem h]
    simp only [Option.map_some']
    rw [hred, classifyDeal_matched_status _ _ _ a b hmatch ha hb ha0 hb0]
  · rw [compare_eq_map, List.getElem?_map, List.getElem?_eq_getElem h]
    simp only [Option.map_some']
    rw [hred, classifyDeal_matched_prev _ _ _ hmatch]

/-- A previous-run listing used to instantiate the diff theorems. -/
def samplePrev : ConcertDeal :=
  { title := "Show A", venue := "Venue", date := "Thu, Dec 11", time := "",
    price := "$50", prices := ["$50", "$60"], url := "u1" }

/-- A previous state holding `samplePrev`. -/
def sampleSt : StateFile := { lastRun := "2025-12-11T00:00:00Z", deals := [samplePrev] }

/-- A current listing matching `samplePrev` whose price text is `$0`. -/
def sampleCurZero : ConcertDeal :=
  { title := "Show A", venue := "Venue", date := "Fri, Dec 12", time := "",
    price := "$0", prices := ["$0"], url := "u1" }

/-- A current listing matching `samplePrev` whose price dropped to `$40`. -/
def sampleCurDrop : ConcertDeal :=
  { title := "Show A", venue := "Venue", date := "Fri, Dec 12", time := "",
    price := "$40", prices := ["$40", "$55"], url := "u1" }

theorem zero_price_conservatism_witness :
    ((compareWithPreviousState [sampleCurZero] (some sampleSt))[0]?).map (·.status) =
      some DealStatus.no_change :=
  zero_price_conservatism [sampleCurZero] sampleSt 0 (by decide) samplePrev
    (by decide) (by decide)

theorem matched_price_comparison_witness :
    ((compareWithPreviousState [sampleCurDrop] (some sampleSt))[0]?).map (·.status) =
      some DealStatus.price_drop ∧
    ((compareWithPreviousState [sampleCurDrop] (some sampleSt))[0]?).map (·.previousPrice) =
      some (some "$50") := by
  have h := matched_price_comparison [sampleCurDrop] sampleSt 0 (by decide) samplePrev (by decide)
  refine ⟨?_, h.2⟩
  have h1 := h.1 40 50 (by decide) (by decide) (by decide) (by decide)
  rw [if_pos (by norm_num : (40 : Int) < 50)] at h1
  exact h1

/-- The price-range filter predicate of `fetchLastMinuteConcertDeals`
(`deals.filter(...)`): reject when `prices` is empty, when a
configured minimum exceeds the parsed cheapest price, or when the
parsed cheapest price exceeds a configured maximum; a `NaN` cheapest
price passes both comparisons (JS `<`/`>` on `NaN` are false). -/
def passesPriceRange (minPrice maxPrice : Option Int) (deal : ConcertDeal) : Bool :=
  match deal.prices with
  | [] => false
  | cheapest :: _ =>
    let numericPrice := jsParseInt (stripDollarCommas cheapest)
    if (match minPrice with | some m => jsLt numericPrice (some m) | none => false) then false
    else if (match maxPrice with | some m => jsGt numericPrice (some m) | none => false) then false
    else true

/-- The guarded application of the price-range filter
(`if (!DEBUG && (MIN_PRICE !== null || MAX_PRICE !== null))`, with the
constant `DEBUG = false`): when both bounds are disabled the list is
left untouched, otherwise it is filtered by `passesPriceRange`. -/
def applyPriceRangeFilter (minPrice maxPrice : Option Int)
    (deals : List ConcertDeal) : List ConcertDeal :=
  if minPrice = none ∧ maxPrice = none then deals
  else deals.filter (passesPriceRange minPrice maxPrice)

theorem passesPriceRange_iff (minPrice maxPrice : Option Int) (d : ConcertDeal) :
    passesPriceRange minPrice maxPrice d = true ↔
      d.prices ≠ [] ∧
      (∀ v : Int, jsParseInt (stripDollarCommas d.prices.headI) = some v →
        (∀ m, minPrice = some m → m ≤ v) ∧ (∀ m, maxPrice = some m → v ≤ m)) := by
  cases hp : d.prices with
  | nil => simp [passesPriceRange, hp]
  | cons c rest =>
    simp only [passesPriceRange, hp, List.headI]
    cases hv : jsParseInt (stripDollarCommas c) with
    | none =>
      cases minPrice <;> cases maxPrice <;>
        simp [jsLt_none_left, jsGt_none_left, hv]
    | some v =>
      cases minPrice <;> cases maxPrice <;>
        simp [jsLt, jsGt, hv]

/-- C6: with at least one bound configured, the ingestion price-range
filter keeps exactly the listings that have a known price and whose
cheapest price, once `$` and commas are stripped and parsed, respects
every configured bound inclusively (a disabled bound imposes nothing);
in particular it drops every listing with zero known prices and every
listing whose parsed cheapest price falls outside `[min, max]`. -/
theorem price_range_filter_drops (minPrice maxPrice : Option Int)
    (hconf : minPrice ≠ none ∨ maxPrice ≠ none)
    (deals : List ConcertDeal) (d : ConcertDeal) :
    d ∈ applyPriceRangeFilter minPrice maxPrice deals ↔
      d ∈ deals ∧ d.prices ≠ [] ∧
      (∀ v : Int, jsParseInt (stripDollarCommas d.prices.headI) = some v →
        (∀ m, minPrice = some m → m ≤ v) ∧ (∀ m, maxPrice = some m → v ≤ m)) := by
  have hcond : ¬(minPrice = none ∧ maxPrice = none) := by tauto
  rw [applyPriceRangeFilter, if_neg hcond, List.mem_filter, passesPriceRange_iff]

/-- A listing whose cheapest price `$5` sits below the configured
minimum of 10. -/
def cheapSampleDeal : ConcertDeal :=
  { title := "Cheap Show", venue := "Venue", date := "Fri, Dec 12", time := "",
    price := "$5", prices := ["$5"], url := "u9" }

theorem price_range_filter_drops_witness :
    cheapSampleDeal ∉ applyPriceRangeFilter (some 10) (some 100) [cheapSampleDeal] := by
  intro hmem
  obtain ⟨-, -, hv⟩ :=
    (price_range_filter_drops (some 10) (some 100) (Or.inl (by simp)) [cheapSampleDeal]
      cheapSampleDeal).mp hmem
  obtain ⟨hmin, -⟩ := hv 5 (by decide)
  have := hmin 10 rfl
  omega

/-- The run mode switch (`ONE_TIME_RUN` constant). -/
inductive RunMode where
  | oneTime
  | cron
deriving DecidableEq, Repr

/-- Whether `fetchLastMinuteConcertDeals()` returned a deal list or
threw (its `catch` block rethrows every scraping error). -/
inductive ScrapeOutcome where
  | ok (deals : List ConcertDeal)
  | thrown
deriving DecidableEq, Repr

/-- The externally observable effects of one `main()` invocation. -/
structure RunEffects where
  stateWritten : Bool
  outputWritten : Bool
  dispatchAttempted : Bool
  exitCode : Nat
deriving DecidableEq, Repr

/-- The control flow of `main()`: scrape; on a thrown scrape the
`catch` calls `process.exit(1)` with nothing written; in cron mode on
success it classifies, filters the noteworthy deals, attempts the
Slack dispatch (`postToSlack` swallows its own network errors, so the
dispatch result `dispatchOk` never alters the flow), writes the JSON
output, and writes the state. -/
def runMain (mode : RunMode) (scrape : ScrapeOutcome) (previous : Option StateFile)
    (enableSlack : Bool) (dispatchOk : Bool) : RunEffects :=
  match scrape with
  | .thrown =>
    { stateWritten := false, outputWritten := false, dispatchAttempted := false, exitCode := 1 }
  | .ok deals =>
    match mode with
    | .oneTime =>
      { stateWritten := false, outputWritten := false, dispatchAttempted := false, exitCode := 0 }
    | .cron =>
      let dealsWithStatus := compareWithPreviousState deals previous
      let noteworthyDeals := dealsWithStatus.filter
        (fun d => d.status == DealStatus.new || d.status == DealStatus.price_drop)
      let _ := dispatchOk
      { stateWritten := true, outputWritten := true,
        dispatchAttempted := enableSlack && !noteworthyDeals.isEmpty,
        exitCode := 0 }

/-- C9: in cron mode the state write is reached exactly when the
scrape phase returned without throwing; the dispatch result never
influences whether the state is written, and a thrown scrape leaves
the state unwritten and exits non-zero. -/
theorem state_write_reached_iff (scrape : ScrapeOutcome) (previous : Option StateFile)
    (enableSlack ok1 ok2 : Bool) :
    ((runMain .cron scrape previous enableSlack ok1).stateWritten = true ↔
      ∃ ds, scrape = .ok ds) ∧
    (runMain .cron scrape previous enableSlack ok1).stateWritten =
      (runMain .cron scrape previous enableSlack ok2).stateWritten ∧
    (scrape = .thrown →
      (runMain .cron scrape previous enableSlack ok1).stateWritten = false ∧
      (runMain .cron scrape previous enableSlack ok1).exitCode ≠ 0) := by
  cases scrape <;> simp [runMain]

theorem state_write_reached_iff_witness :
    (runMain .cron .thrown none true true).stateWritten = false ∧
    (runMain .cron .thrown none true true).exitCode ≠ 0 :=
  (state_write_reached_iff .thrown none true true false).2.2 rfl

/-- An atom of the modelled regex subset: a literal character or `.`
(any character except a line terminator). -/
inductive RAtom where
  | chr (c : Char)
  | dot
deriving DecidableEq, Repr

/-- A piece of the modelled regex subset: an atom matched once,
zero-or-more times (`*`), or zero-or-one time (`?`). -/
inductive RPiece where
  | once (a : RAtom)
  | star (a : RAtom)
  | opt (a : RAtom)
deriving DecidableEq, Repr

/-- A compiled regex: an optional leading `^` anchor and a piece
sequence. -/
structure JsRegex where
  anchored : Bool
  pieces : List RPiece
deriving DecidableEq, Repr

/-- Flush a pending atom into a committed once-piece. -/
def commitPending : Option RAtom → List RPiece
  | some a => [RPiece.once a]
  | none => []

/-- Parse the piece sequence of a pattern.  A quantifier (`*`, `+`,
`?`) with no preceding atom is the "nothing to repeat" compile error
(`none`), exactly the error `new RegExp` raises for such patterns.
The model covers patterns built from literal characters, `.`, and
single-atom quantifiers; grouping, classes, escapes, alternation,
`$`, and a non-leading `^` are outside the modelled subset and also
mapped to `none`. -/
def parsePieces : List Char → Option RAtom → List RPiece → Option (List RPiece)
  | [], pending, acc => some (acc ++ commitPending pending)
  | c :: cs, pending, acc =>
    if c = '*' then
      match pending with
      | some a => parsePieces cs none (acc ++ [RPiece.star a])
      | none => none
    else if c = '+' then
      match pending with
      | some a => parsePieces cs none (acc ++ [RPiece.once a, RPiece.star a])
      | none => none
    else if c = '?' then
      match pending with
      | some a => parsePieces cs none (acc ++ [RPiece.opt a])
      | none => none
    else if c = '.' then
      parsePieces cs (some RAtom.dot) (acc ++ commitPending pending)
    else if c = '(' ∨ c = ')' ∨ c = '[' ∨ c = '\\' ∨ c = '|' ∨ c = '$' ∨ c = '^' then
      none
    else
      parsePieces cs (some (RAtom.chr c)) (acc ++ commitPending pending)

/-- `new RegExp(pattern, 'i')` over the modelled subset: a leading
`^` anchors the match to the start; `none` is a compile failure. -/
def regexCompile (pat : String) : Option JsRegex :=
  match pat.data with
  | '^' :: rest => (parsePieces rest none []).map (fun ps => { anchored := true, pieces := ps })
  | cs => (parsePieces cs none []).map (fun ps => { anchored := false, pieces := ps })

/-- Case-insensitive atom match (the `'i'` flag): literals compare
lower-cased; `.` matches anything but a line terminator. -/
def atomMatches (a : RAtom) (c : Char) : Bool :=
  match a with
  | .chr p => p.toLower = c.toLower
  | .dot => !(c = '\n' || c = '\r')

/-- Backtracking matcher with an explicit step budget: every
recursive call removes a piece or consumes a character, so a budget
of `ps.length + cs.length + 1` (used by `matchHere` below) can never
run out and the `0` branch is unreachable. -/
def matchFuel : Nat → List RPiece → List Char → Bool
  | 0, _, _ => false
  | fuel + 1, ps, cs =>
    match ps with
    | [] => true
    | RPiece.once a :: ps2 =>
      match cs with
      | [] => false
      | c :: cs2 => atomMatches a c && matchFuel fuel ps2 cs2
    | RPiece.opt a :: ps2 =>
      matchFuel fuel ps2 cs ||
        (match cs with
         | [] => false
         | c :: cs2 => atomMatches a c && matchFuel fuel ps2 cs2)
    | RPiece.star a :: ps2 =>
      matchFuel fuel ps2 cs ||
        (match cs with
         | [] => false
         | c :: cs2 => atomMatches a c && matchFuel fuel (RPiece.star a :: ps2) cs2)

/-- Do the pieces match some prefix of the character list? -/
def matchHere (ps : List RPiece) (cs : List Char) : Bool :=
  matchFuel (ps.length + cs.length + 1) ps cs

/-- Do the pieces match starting at any position? -/
def anyStart (ps : List RPiece) : List Char → Bool
  | [] => matchHere ps []
  | c :: cs => matchHere ps (c :: cs) || anyStart ps cs

/-- `regex.test(s)`: an anchored regex must match at the start, an
unanchored one anywhere. -/
def regexTest (r : JsRegex) (s : String) : Bool :=
  if r.anchored then matchHere r.pieces s.data else anyStart r.pieces s.data

/-- `haystack` starts with `needle` (exact characters). -/
def startsWithChars : List Char → List Char → Bool
  | [], _ => true
  | _ :: _, [] => false
  | p :: ps, c :: cs => p = c && startsWithChars ps cs

/-- JavaScript `String.includes`: `needle` occurs contiguously in
`haystack`. -/
def containsChars : List Char → List Char → Bool
  | [], needle => startsWithChars needle []
  | c :: cs, needle => startsWithChars needle (c :: cs) || containsChars cs needle

/-- `haystack.includes(needle)` at the string level. -/
def jsIncludes (haystack needle : String) : Bool :=
  containsChars haystack.data needle.data

/-- `s.toLowerCase()`, modelled characterwise (the ASCII patterns and
titles involved lowercase per character). -/
def jsToLower (s : String) : String := String.mk (s.data.map Char.toLower)

/-- The per-pattern predicate inside `EXCLUDED_EVENTS.some(...)`:
try to compile the pattern case-insensitively and test the lower-cased
title; on compile failure fall back to
`titleLower.includes(pattern.toLowerCase())`. -/
def matchesExcludedPattern (pat : String) (titleLower : String) : Bool :=
  match regexCompile pat with
  | some r => regexTest r titleLower
  | none => jsIncludes titleLower (jsToLower pat)

/-- C7: the pattern-exclusion predicate is the pure function above; on
compile failure it degrades to a case-insensitive literal substring
test of the same string, and on the spec's examples the anchor is
honoured: `^wizard of oz` does not match `the wizard of oz` while
`wizard of oz` does. -/
theorem pattern_exclusion_behavior :
    (∀ pat title : String, regexCompile pat = none →
      matchesExcludedPattern pat title = jsIncludes title (jsToLower pat)) ∧
    matchesExcludedPattern "^wizard of oz" "the wizard of oz" = false ∧
    matchesExcludedPattern "wizard of oz" "the wizard of oz" = true := by
  refine ⟨?_, by decide, by decide⟩
  intro pat title hc
  simp [matchesExcludedPattern, hc]

theorem pattern_exclusion_behavior_witness :
    matchesExcludedPattern "*wizard of oz*" "the wizard of oz" =
      jsIncludes "the wizard of oz" (jsToLower "*wizard of oz*") :=
  pattern_exclusion_behavior.1 "*wizard of oz*" "the wizard of oz" (by decide)

/-- The numeric sort key of a price string:
`parseInt(p.replace(/[$,]/g, ''))`, with `NaN` defaulted to 0 (the
pipeline only ever sorts strings that passed the parse filter, so the
default is never consulted there). -/
def priceNumeric (p : String) : Int := (jsParseInt (stripDollarCommas p)).getD 0

/-- The comparator `(a, b) => a.numeric - b.numeric` as an order. -/
def priceLe (a b : String) : Prop := priceNumeric a ≤ priceNumeric b

instance : DecidableRel priceLe :=
  fun a b => inferInstanceAs (Decidable (priceNumeric a ≤ priceNumeric b))

instance : IsTotal String priceLe := ⟨fun _ _ => le_total _ _⟩

instance : IsTrans String priceLe := ⟨fun _ _ _ => le_trans⟩

/-- The in-page validity check of `getPricesForEvent`:
`numericValue >= 10 && numericValue < 10000`. -/
def validTicketPrice (p : String) : Bool :=
  match jsParseInt (stripDollarCommas p) with
  | some v => decide (10 ≤ v ∧ v < 10000)
  | none => false

/-- JavaScript `Set.add`: append only if absent (first occurrence
kept, insertion order preserved). -/
def priceSetInsert (seen : List String) (x : String) : List String :=
  if x ∈ seen then seen else seen ++ [x]

/-- `Array.from(new Set(...))` over the matched price strings. -/
def dedupKeepFirst (l : List String) : List String := l.foldl priceSetInsert []

/-- The pure tail of `getPricesForEvent`: range-filter the regex
matches into a set, sort ascending by numeric value, keep the
cheapest 3. -/
def pricePipeline (priceMatches : List String) : List String :=
  ((dedupKeepFirst (priceMatches.filter validTicketPrice)).insertionSort priceLe).take 3

/-- `if (prices.length > 0) deal.price = prices[0]`: the new display
price, keeping the old one when the list is empty. -/
def priceFieldFor (ps : List String) (old : String) : String :=
  match ps with
  | p :: _ => p
  | [] => old

/-- The per-deal update in `fetchLastMinuteConcertDeals`:
`deal.prices = prices; if (prices.length > 0) deal.price = prices[0]`. -/
def setDealPrices (deal : ConcertDeal) (ps : List String) : ConcertDeal :=
  { deal with prices := ps, price := priceFieldFor ps deal.price }

theorem mem_priceSetInsert {acc : List String} {a x : String}
    (h : x ∈ priceSetInsert acc a) : x ∈ acc ∨ x = a := by
  unfold priceSetInsert at h
  split at h
  · exact Or.inl h
  · rcases List.mem_append.mp h with h2 | h2
    · exact Or.inl h2
    · exact Or.inr (List.mem_singleton.mp h2)

theorem dedupKeepFirst_subset {l : List String} {x : String}
    (h : x ∈ dedupKeepFirst l) : x ∈ l := by
  have key : ∀ (l acc : List String) (x : String),
      x ∈ l.foldl priceSetInsert acc → x ∈ acc ∨ x ∈ l := by
    intro l
    induction l with
    | nil => intro acc x h; exact Or.inl h
    | cons a as ih =>
      intro acc x h
      rcases ih _ x h with h2 | h2
      · rcases mem_priceSetInsert h2 with h3 | h3
        · exact Or.inl h3
        · exact Or.inr (by simp [h3])
      · exact Or.inr (List.mem_cons_of_mem _ h2)
  rcases key l [] x h with h2 | h2
  · simp at h2
  · exact h2

theorem pricePipeline_mem_valid {priceMatches : List String} {p : String}
    (h : p ∈ pricePipeline priceMatches) : validTicketPrice p = true := by
  unfold pricePipeline at h
  have h1 := (List.take_sublist 3 _).subset h
  have h2 := (List.perm_insertionSort priceLe _).subset h1
  have h3 := dedupKeepFirst_subset h2
  exact (List.mem_filter.mp h3).2

theorem validTicketPrice_spec {p : String} (h : validTicketPrice p = true) :
    ∃ v : Int, jsParseInt (stripDollarCommas p) = some v ∧ 10 ≤ v ∧ v < 10000 := by
  unfold validTicketPrice at h
  cases hv : jsParseInt (stripDollarCommas p) with
  | none => rw [hv] at h; simp at h
  | some v =>
    rw [hv] at h
    exact ⟨v, rfl, by simpa using h⟩

/-- C8: for any listing and any batch of matched price strings, the
listing produced by the price pipeline has a `prices` sequence that is
non-decreasing under `parseInt` of the `$`/comma-stripped text, has
length at most 3, contains only strings that parse to a value in
`[10, 10000)`, and has `price` equal to `prices[0]` whenever `prices`
is non-empty. -/
theorem price_ordering_invariant (deal : ConcertDeal) (priceMatches : List String) :
    (setDealPrices deal (pricePipeline priceMatches)).prices.Pairwise
      (fun a b => (jsParseInt (stripDollarCommas a)).getD 0 ≤
                  (jsParseInt (stripDollarCommas b)).getD 0) ∧
    (setDealPrices deal (pricePipeline priceMatches)).prices.length ≤ 3 ∧
    (∀ p ∈ (setDealPrices deal (pricePipeline priceMatches)).prices,
      ∃ v : Int, jsParseInt (stripDollarCommas p) = some v ∧ 10 ≤ v ∧ v < 10000) ∧
    ((setDealPrices deal (pricePipeline priceMatches)).prices ≠ [] →
      (setDealPrices deal (pricePipeline priceMatches)).price =
        (setDealPrices deal (pricePipeline priceMatches)).prices.headI) := by
  have hpr : (setDealPrices deal (pricePipeline priceMatches)).prices = pricePipeline priceMatches := rfl
  refine ⟨?_, ?_, ?_, ?_⟩
  · rw [hpr]
    have hs : (((dedupKeepFirst (priceMatches.filter validTicketPrice)).insertionSort
        priceLe)).Pairwise priceLe :=
      List.sorted_insertionSort priceLe _
    exact (hs.sublist (List.take_sublist 3 _)).imp (fun hab => hab)
  · rw [hpr]
    exact List.length_take_le 3 _
  · rw [hpr]
    intro p hp
    exact validTicketPrice_spec (pricePipeline_mem_valid hp)
  · intro hne
    cases h : pricePipeline priceMatches with
    | nil =>
      rw [hpr, h] at hne
      exact absurd rfl hne
    | cons p rest =>
      simp [setDealPrices, priceFieldFor]

theorem price_ordering_invariant_witness :
    ((setDealPrices samplePrev (pricePipeline ["$30", "$20", "$9", "$1,500"])).price =
      (setDealPrices samplePrev (pricePipeline ["$30", "$20", "$9", "$1,500"])).prices.headI) ∧
    (∃ v : Int, jsParseInt (stripDollarCommas "$20") = some v ∧ 10 ≤ v ∧ v < 10000) :=
  ⟨(price_ordering_invariant samplePrev ["$30", "$20", "$9", "$1,500"]).2.2.2 (by decide),
   (price_ordering_invariant samplePrev ["$30", "$20", "$9", "$1,500"]).2.2.1 "$20" (by decide)⟩

/-- The noteworthy filter of `main`'s cron branch:
`d.status === 'new' || d.status === 'price_drop'`. -/
def isNoteworthy (d : DealWithStatus) : Bool :=
  d.status == DealStatus.new || d.status == DealStatus.price_drop

/-- The mrkdwn text of a new-deal section block in `postToSlack`
(`TICKET_QUANTITY` is the constant 2). -/
def newDealBlockText (d : DealWithStatus) : String :=
  "*<" ++ d.url ++ "|" ++ d.title ++ ">*\n📍 " ++ d.venue ++ "\n📅 " ++ d.date ++
    "\n💰 *" ++ d.price ++ "* for 2 tickets"

/-- The mrkdwn text of a price-drop section block in `postToSlack`
(an absent `previousPrice` would interpolate as `undefined`, as in
JavaScript). -/
def priceDropBlockText (d : DealWithStatus) : String :=
  "*<" ++ d.url ++ "|" ++ d.title ++ ">*\n📍 " ++ d.venue ++ "\n📅 " ++ d.date ++
    "\n💰 ~" ++ d.previousPrice.getD "undefined" ++ "~ → *" ++ d.price ++ "* for 2 tickets"

/-- The batches `postToSlack` dispatches, as lists of the listings
each outbound message carries (Slack enabled).  The function returns
without a message when its input is empty or contains no new deal and
no price drop; otherwise it builds exactly ONE message whose blocks
list all new deals first, then all price drops — there is no
size-based splitting anywhere in the function. -/
def slackBatches (deals : List DealWithStatus) : List (List DealWithStatus) :=
  if deals.isEmpty then []
  else if (deals.filter (fun d => d.status == DealStatus.new)).isEmpty &&
      (deals.filter (fun d => d.status == DealStatus.price_drop)).isEmpty then []
  else [deals.filter (fun d => d.status == DealStatus.new) ++
    deals.filter (fun d => d.status == DealStatus.price_drop)]

/-- A character-count lower estimate of the single Slack message built
from `deals`: the header text plus the section-header and per-listing
block texts (the timestamp context line and the JSON block scaffolding
are not counted, so the real payload is strictly larger). -/
def slackMessageTextChars (deals : List DealWithStatus) : Nat :=
  let newDeals := deals.filter (fun d => d.status == DealStatus.new)
  let priceDrops := deals.filter (fun d => d.status == DealStatus.price_drop)
  "🎟️ Las Vegas Concert Deals".length
    + (if newDeals.isEmpty then 0 else
        "*🆕 New Deals*".length + (newDeals.map (fun d => (newDealBlockText d).length)).sum)
    + (if priceDrops.isEmpty then 0 else
        "*📉 Price Drops*".length + (priceDrops.map (fun d => (priceDropBlockText d).length)).sum)

theorem filter_status_or_perm (l : List DealWithStatus) :
    (l.filter (fun d => d.status == DealStatus.new) ++
      l.filter (fun d => d.status == DealStatus.price_drop)).Perm
      (l.filter isNoteworthy) := by
  induction l with
  | nil => simp
  | cons x xs ih =>
    by_cases h1 : x.status = DealStatus.new
    · have hb1 : (x.status == DealStatus.new) = true := by simp [h1]
      have hn : isNoteworthy x = true := by simp [isNoteworthy, hb1]
      have hb2 : (x.status == DealStatus.price_drop) = true ∨
          (x.status == DealStatus.price_drop) = false := by
        cases x.status == DealStatus.price_drop <;> simp
      rcases hb2 with hb2 | hb2
      · rw [h1] at hb2; simp at hb2
      · simpa [List.filter_cons, hb1, hb2, hn] using ih.cons x
    · have hb1 : (x.status == DealStatus.new) = false := by
        simpa using h1
      by_cases h2 : x.status = DealStatus.price_drop
      · have hb2 : (x.status == DealStatus.price_drop) = true := by simp [h2]
        have hn : isNoteworthy x = true := by simp [isNoteworthy, hb2]
        have step : (xs.filter (fun d => d.status == DealStatus.new) ++
            x :: xs.filter (fun d => d.status == DealStatus.price_drop)).Perm
            (x :: (xs.filter (fun d => d.status == DealStatus.new) ++
              xs.filter (fun d => d.status == DealStatus.price_drop))) :=
          List.perm_middle
        simpa [List.filter_cons, hb1, hb2, hn] using step.trans (ih.cons x)
      · have hb2 : (x.status == DealStatus.price_drop) = false := by
          simpa using h2
        have hn : isNoteworthy x = false := by simp [isNoteworthy, hb1, hb2]
        simpa [List.filter_cons, hb1, hb2, hn] using ih

/-- C5 (amended): `postToSlack` produces at most one batch; its
listings are exactly the new listings of the input (in input order)
followed by the price-drop listings (in input order), which is a
permutation — one occurrence each, no omission — of the noteworthy
filter of the input, but not the input order itself; no size ceiling
is enforced anywhere. -/
theorem slack_single_unbounded_batch (deals : List DealWithStatus) :
    (slackBatches deals).length ≤ 1 ∧
    (slackBatches deals).flatten =
      deals.filter (fun d => d.status == DealStatus.new) ++
        deals.filter (fun d => d.status == DealStatus.price_drop) ∧
    ((slackBatches deals).flatten).Perm (deals.filter isNoteworthy) := by
  have hjoin : (slackBatches deals).flatten =
      deals.filter (fun d => d.status == DealStatus.new) ++
        deals.filter (fun d => d.status == DealStatus.price_drop) := by
    unfold slackBatches
    split
    · rename_i hempty
      rw [List.isEmpty_iff] at hempty
      simp [hempty]
    · split
      · rename_i hboth
        rw [Bool.and_eq_true, List.isEmpty_iff, List.isEmpty_iff] at hboth
        simp [hboth.1, hboth.2]
      · simp
  refine ⟨?_, hjoin, ?_⟩
  · unfold slackBatches
    split
    · simp
    · split <;> simp
  · rw [hjoin]
    exact filter_status_or_perm deals

/-- A 4001-character title, long enough that the single Slack message
built from its listing alone exceeds 4000 characters. -/
def longTitle : String := String.mk (List.replicate 4001 'a')

/-- A price-drop listing with the oversized title, appearing FIRST in
the dispatcher input. -/
def exDrop : DealWithStatus :=
  { toConcertDeal :=
      { title := longTitle, venue := "V", date := "D", time := "",
        price := "$40", prices := ["$40"], url := "u1" },
    status := .price_drop, previousPrice := some "$50" }

/-- A new listing appearing SECOND in the dispatcher input. -/
def exNew : DealWithStatus :=
  { toConcertDeal :=
      { title := "B", venue := "V", date := "D", time := "",
        price := "$60", prices := ["$60"], url := "u2" },
    status := .new, previousPrice := none }

/-- A dispatcher input with a price drop before a new listing. -/
def exInput : List DealWithStatus := [exDrop, exNew]

theorem dropBlock_le_slackMessageTextChars (deals : List DealWithStatus)
    (d : DealWithStatus)
    (hd : d ∈ deals.filter (fun x => x.status == DealStatus.price_drop)) :
    (priceDropBlockText d).length ≤ slackMessageTextChars deals := by
  have hne : (deals.filter (fun x => x.status == DealStatus.price_drop)).isEmpty = false := by
    cases hfe : deals.filter (fun x => x.status == DealStatus.price_drop) with
    | nil => rw [hfe] at hd; cases hd
    | cons a l => rfl
  have hsum : (priceDropBlockText d).length ≤
      ((deals.filter (fun x => x.status == DealStatus.price_drop)).map
        (fun x => (priceDropBlockText x).length)).sum :=
    List.single_le_sum (fun _ _ => Nat.zero_le _) _ (List.mem_map_of_mem _ hd)
  unfold slackMessageTextChars
  simp only [hne, Bool.false_eq_true, if_false]
  omega

/-- C5 is false on the code: at `exInput` the dispatcher emits one
batch whose character estimate exceeds 4000 (no ceiling exists in
`postToSlack`), and the concatenation of the batches' listings is
`[exNew, exDrop]` — new deals first — which is not the noteworthy
filter of the input in input order, `[exDrop, exNew]`. -/
theorem batch_claim_counterexample :
    (∃ b ∈ slackBatches exInput, 4000 < slackMessageTextChars b) ∧
    (slackBatches exInput).flatten ≠ exInput.filter isNoteworthy := by
  have s1 : (exDrop.status == DealStatus.new) = false := by decide
  have s2 : (exDrop.status == DealStatus.price_drop) = true := by decide
  have s3 : (exNew.status == DealStatus.new) = true := by decide
  have s4 : (exNew.status == DealStatus.price_drop) = false := by decide
  have hbatch : slackBatches exInput = [[exNew, exDrop]] := rfl
  have hlong : longTitle.length = 4001 := by
    show (List.replicate 4001 'a').length = 4001
    rw [List.length_replicate]
  constructor
  · refine ⟨[exNew, exDrop], by rw [hbatch]; exact List.mem_singleton_self _, ?_⟩
    have htitle : exDrop.title.length = 4001 := by
      rw [show exDrop.title = longTitle from rfl, hlong]
    have hdrop : 4001 ≤ (priceDropBlockText exDrop).length := by
      simp only [priceDropBlockText, String.length_append]
      omega
    have hfil : [exNew, exDrop].filter (fun x => x.status == DealStatus.price_drop) =
        [exDrop] := rfl
    have hchars := dropBlock_le_slackMessageTextChars [exNew, exDrop] exDrop
      (by rw [hfil]; exact List.mem_singleton_self _)
    omega
  · rw [hbatch]
    have t1 : exNew.status = DealStatus.new := by decide
    have t2 : exDrop.status = DealStatus.price_drop := by decide
    have n1 : isNoteworthy exDrop = true := by decide
    have n2 : isNoteworthy exNew = true := by decide
    intro heq
    have hstat := congrArg (List.map (fun d => d.status)) heq
    simp [exInput, List.filter_cons, n1, n2, t1, t2] at hstat

end Shows
